import Mathlib

/-!
Shallow embedding of `src/app/components/Sharing/Document/DocumentMemberList.tsx`
from the `outline` repository, together with theorems settling the frozen
claims about it.

Strings are embedded as lists of UTF-16 code units (natural numbers).
JavaScript's stable `Array.prototype.sort` and lodash's stable `orderBy`
are embedded with Mathlib's stable `List.insertionSort`.
-/

namespace Outline

/-- A JavaScript string, as its sequence of UTF-16 code units. -/
abbrev Str := List Nat

/-- Model of `String.prototype.toLocaleLowerCase` in the default locale on a
single ASCII code unit: `A`..`Z` (65..90) map to `a`..`z` (97..122); every
other code unit is unchanged. -/
def lowerCode (c : Nat) : Nat := if 65 ≤ c ∧ c ≤ 90 then c + 32 else c

/-- `toLocaleLowerCase` on a whole string. -/
def lowerStr (s : Str) : Str := s.map lowerCode

/-- Lexicographic code-unit comparison of strings: the order computed by the
JavaScript relational operators (`<`, `>`) on strings, which lodash's
`compareAscending` uses for string sort keys. `strLe a b` means `a <= b`. -/
def strLe : Str → Str → Bool
  | [], _ => true
  | _ :: _, [] => false
  | a :: as, b :: bs => if a < b then true else if b < a then false else strLe as bs

theorem strLe_total : ∀ a b : Str, strLe a b = true ∨ strLe b a = true
  | [], _ => Or.inl rfl
  | _ :: _, [] => Or.inr rfl
  | a :: as, b :: bs => by
    simp only [strLe]
    rcases Nat.lt_trichotomy a b with h | h | h
    · left; simp [h]
    · subst h
      simp only [Nat.lt_irrefl, if_false]
      exact strLe_total as bs
    · right; simp [h]

theorem strLe_trans :
    ∀ a b c : Str, strLe a b = true → strLe b c = true → strLe a c = true
  | [], _, _, _, _ => rfl
  | _ :: _, [], _, h, _ => by simp [strLe] at h
  | _ :: _, _ :: _, [], _, h => by simp [strLe] at h
  | a :: as, b :: bs, c :: cs, hab, hbc => by
    simp only [strLe] at hab hbc ⊢
    by_cases h1 : a < b
    · by_cases h2 : b < c
      · simp [Nat.lt_trans h1 h2]
      · by_cases h3 : c < b
        · simp [strLe] at hbc; omega
        · have : b = c := by omega
          subst this
          simp [h1]
    · by_cases h1' : b < a
      · simp [h1, h1'] at hab
      · have : a = b := by omega
        subst this
        simp only [Nat.lt_irrefl, if_false] at hab
        by_cases h2 : a < c
        · simp [h2]
        · by_cases h3 : c < a
          · simp [h2, h3] at hbc
          · have : a = c := by omega
            subst this
            simp only [Nat.lt_irrefl, if_false] at hbc ⊢
            exact strLe_trans as bs cs hab hbc

/-- A document member user, as consumed by the component: an id and a name. -/
structure User where
  id : Nat
  name : Str
deriving DecidableEq, Repr

/-- The lodash `orderBy` iteratee from the component (lines 115-125): a
session-invited user's key is `"_"` (code unit 95) followed by the
locale-lowercased name; a non-invited user's key is just the lowercased
name. -/
def memberKey (invitedInSession : List Nat) (u : User) : Str :=
  (if u.id ∈ invitedInSession then [95] else []) ++ lowerStr u.name

/-- Key comparison induced on users by `memberKey`. -/
def memberLe (invitedInSession : List Nat) (a b : User) : Prop :=
  strLe (memberKey invitedInSession a) (memberKey invitedInSession b) = true

instance (inv : List Nat) : DecidableRel (memberLe inv) := fun _ _ =>
  instDecidableEqBool _ _

instance (inv : List Nat) : IsTotal User (memberLe inv) :=
  ⟨fun a b => strLe_total (memberKey inv a) (memberKey inv b)⟩

instance (inv : List Nat) : IsTrans User (memberLe inv) :=
  ⟨fun _ _ _ hab hbc => strLe_trans _ _ _ hab hbc⟩

/-- `orderBy(document.members, key, "asc")`: a stable ascending sort of the
members by their string key. -/
def displayedMembers (members : List User) (invitedInSession : List Nat) : List User :=
  List.insertionSort (memberLe invitedInSession) members

/-- The relation the claim asserts between adjacent-in-order displayed members:
no non-invited user comes before an invited one, and users in the same
partition are in case-insensitive ascending name order. -/
def memberPairOk (inv : List Nat) (a b : User) : Prop :=
  (b.id ∈ inv → a.id ∈ inv) ∧
  ((a.id ∈ inv ↔ b.id ∈ inv) → strLe (lowerStr a.name) (lowerStr b.name) = true)

instance (inv : List Nat) (a b : User) : Decidable (memberPairOk inv a b) := by
  unfold memberPairOk; infer_instance

/-- The displayed-members ordering property exactly as the claim states it. -/
def membersClaim (members : List User) (inv : List Nat) : Prop :=
  (displayedMembers members inv).Perm members ∧
  (displayedMembers members inv).Pairwise (memberPairOk inv)

instance (members : List User) (inv : List Nat) : Decidable (membersClaim members inv) := by
  unfold membersClaim; infer_instance

/-- A user's name begins with a code unit whose lowercase image is above
`"_"` (95); ASCII letters satisfy this, digits and most punctuation do not. -/
def nameAboveUnderscore (u : User) : Prop :=
  match u.name with
  | [] => False
  | c :: _ => 95 < lowerCode c

instance (u : User) : Decidable (nameAboveUnderscore u) := by
  unfold nameAboveUnderscore; split <;> infer_instance

/-- Every member's name begins above `"_"` in the key order. -/
def allNamesAbove (l : List User) : Prop := ∀ u ∈ l, nameAboveUnderscore u

instance (l : List User) : Decidable (allNamesAbove l) := by
  unfold allNamesAbove; infer_instance

theorem memberLe_pairOk (inv : List Nat) {a b : User}
    (ha : nameAboveUnderscore a) (hle : memberLe inv a b) : memberPairOk inv a b := by
  by_cases hA : a.id ∈ inv <;> by_cases hB : b.id ∈ inv
  · simp only [memberLe, memberKey, if_pos hA, if_pos hB, List.singleton_append] at hle
    simp only [strLe, Nat.lt_irrefl, if_false] at hle
    exact ⟨fun _ => hA, fun _ => hle⟩
  · exact ⟨fun _ => hA, fun hiff => ((hB (hiff.mp hA)).elim)⟩
  · -- a is not invited but b is: impossible given `ha`, since a's key starts
    -- above 95 while b's key starts with 95
    exfalso
    rcases a with ⟨aid, aname⟩
    cases aname with
    | nil => exact ha
    | cons c rest =>
      have h95 : 95 < lowerCode c := ha
      simp only [memberLe, memberKey, if_neg hA, if_pos hB, List.nil_append,
        List.singleton_append, lowerStr, List.map] at hle
      simp only [strLe, if_neg (Nat.lt_asymm h95), if_pos h95] at hle
      exact Bool.false_ne_true hle
  · simp only [memberLe, memberKey, if_neg hA, if_neg hB, List.nil_append] at hle
    exact ⟨fun h => (hB h).elim, fun _ => hle⟩

/-- C1 (amended): provided every member's name begins with a character whose
lowercase form sorts above `"_"` (as every ASCII-letter-initial name does),
the displayed members list is a permutation of `document.members` in which
every session-invited user precedes every non-invited user, and within each
partition users are ordered case-insensitively ascending by name. -/
theorem members_claim_amended (members : List User) (inv : List Nat)
    (h : allNamesAbove members) : membersClaim members inv := by
  refine ⟨List.perm_insertionSort _ _, ?_⟩
  have hs : (displayedMembers members inv).Pairwise (memberLe inv) :=
    List.sorted_insertionSort (memberLe inv) members
  refine hs.imp_of_mem ?_
  intro a b hamem _ hle
  have ha : nameAboveUnderscore a :=
    h a ((List.perm_insertionSort (memberLe inv) members).mem_iff.mp hamem)
  exact memberLe_pairOk inv ha hle

/-- C1 (counterexample): with an invited user named `"a"` and a non-invited
user named `"0"`, the non-invited user sorts first, because `"0"` (48)
precedes the `"_"` (95) marker in code-unit order; so the claim as stated
fails. -/
theorem members_claim_counterexample :
    ¬ membersClaim [⟨1, [97]⟩, ⟨2, [48]⟩] [1] := by decide

/-- C1 (witness): the amended theorem applied to an invited user named `"b"`
and a non-invited user named `"a"`. -/
theorem members_claim_amended_witness :
    allNamesAbove [⟨1, [98]⟩, ⟨2, [97]⟩] ∧ membersClaim [⟨1, [98]⟩, ⟨2, [97]⟩] [1] :=
  ⟨by decide, members_claim_amended [⟨1, [98]⟩, ⟨2, [97]⟩] [1] (by decide)⟩

/-- `DocumentPermission` from `@shared/types`: the three concrete document
permission levels. -/
inductive DocumentPermission
  | read
  | readWrite
  | admin
deriving DecidableEq, Repr

/-- A value of the permission select: either a concrete permission or the
`EmptySelectValue` sentinel meaning "remove". -/
inductive SelectValue
  | empty
  | perm (p : DocumentPermission)
deriving DecidableEq, Repr

/-- A group as referenced by the component: id, name, member count. -/
structure Group where
  id : Nat
  name : Str
  memberCount : Nat
deriving DecidableEq, Repr

/-- A group membership of the document, as returned by
`groupMemberships.inDocument(document.id)`. -/
structure GroupMembership where
  id : Nat
  groupId : Nat
  group : Group
  permission : SelectValue
deriving DecidableEq, Repr

/-- Lexicographic three-way code-unit comparison of strings. -/
def strCmp : Str → Str → Ordering
  | [], [] => Ordering.eq
  | [], _ :: _ => Ordering.lt
  | _ :: _, [] => Ordering.gt
  | a :: as, b :: bs =>
    if a < b then Ordering.lt else if b < a then Ordering.gt else strCmp as bs

/-- Model of `String.prototype.localeCompare` under the default locale,
restricted to ASCII: a case-insensitive primary comparison in code-unit
order, with the exact code-unit comparison breaking primary ties. The true
collation is host-locale dependent and external to the source; on the
ASCII-letter names used in the concrete theorems below, every collation
agrees with this model. -/
def localeCompare (a b : Str) : Ordering :=
  match strCmp (lowerStr a) (lowerStr b) with
  | Ordering.eq => strCmp a b
  | o => o

/-- The group sort comparator exactly as written in the source (lines
157-163): the `"_"` session marker is prepended only to the LEFT comparand
before `localeCompare`; the right comparand is always the bare group name. -/
def groupSortCmp (inv : List Nat) (a b : GroupMembership) : Ordering :=
  localeCompare ((if a.group.id ∈ inv then [95] else []) ++ a.group.name) b.group.name

/-- `a` stays before `b` under `Array.prototype.sort` when the comparator is
non-positive. -/
def groupLe (inv : List Nat) (a b : GroupMembership) : Prop :=
  groupSortCmp inv a b ≠ Ordering.gt

instance (inv : List Nat) : DecidableRel (groupLe inv) := fun _ _ => by
  unfold groupLe; infer_instance

/-- `groupMemberships.inDocument(document.id).sort(comparator)`:
`Array.prototype.sort` is a stable comparison sort (ES2019), modelled with
a stable insertion sort. The comparator in the source is not a consistent
ordering, so longer inputs are implementation-defined, but on the
two-element inputs used below every stable comparison sort coincides. -/
def displayedGroups (gs : List GroupMembership) (inv : List Nat) : List GroupMembership :=
  List.insertionSort (groupLe inv) gs

/-- The relation the claim asserts between displayed groups in order. -/
def groupPairOk (inv : List Nat) (a b : GroupMembership) : Prop :=
  (b.group.id ∈ inv → a.group.id ∈ inv) ∧
  ((a.group.id ∈ inv ↔ b.group.id ∈ inv) →
    strLe (lowerStr a.group.name) (lowerStr b.group.name) = true)

instance (inv : List Nat) (a b : GroupMembership) : Decidable (groupPairOk inv a b) := by
  unfold groupPairOk; infer_instance

/-- The displayed-groups ordering property exactly as the claim states it. -/
def groupsClaim (gs : List GroupMembership) (inv : List Nat) : Prop :=
  (displayedGroups gs inv).Perm gs ∧
  (displayedGroups gs inv).Pairwise (groupPairOk inv)

instance (gs : List GroupMembership) (inv : List Nat) : Decidable (groupsClaim gs inv) := by
  unfold groupsClaim; infer_instance

/-- A non-invited membership of a group named `"a"`. -/
def groupMembershipA : GroupMembership :=
  ⟨1, 10, ⟨10, [97], 1⟩, SelectValue.perm DocumentPermission.read⟩

/-- A session-invited membership of a group named `"b"` (group id 20). -/
def groupMembershipB : GroupMembership :=
  ⟨2, 20, ⟨20, [98], 1⟩, SelectValue.perm DocumentPermission.read⟩

/-- C2: with the group `"b"` invited in session and the group `"a"` not, the
source's comparator leaves the non-invited `"a"` before the invited `"b"`
(the `"_"` marker is prepended only to the left comparand), so the claimed
invited-first ordering fails. -/
theorem groups_sort_bug_eval :
    displayedGroups [groupMembershipA, groupMembershipB] [20] =
      [groupMembershipA, groupMembershipB] ∧
    ¬ groupsClaim [groupMembershipA, groupMembershipB] [20] :=
  ⟨by decide, by decide⟩

/-- The translated toast messages the component can show (the `t(...)` calls,
with their interpolated user name where one appears). -/
inductive ToastMessage
  | removedFromDocument (userName : Str)
  | permissionsUpdated (userName : Str)
  | couldNotRemoveUser
  | couldNotUpdateUser
deriving DecidableEq, Repr

/-- The observable actions a handler can take: store mutations, toasts, and
navigation to the home path. -/
inductive Effect
  | deleteUserMembership (documentId userId : Nat)
  | createUserMembership (documentId userId : Nat) (permission : DocumentPermission)
  | deleteGroupMembership (documentId groupId : Nat)
  | createGroupMembership (documentId groupId : Nat) (permission : DocumentPermission)
  | toastSuccess (m : ToastMessage)
  | toastError (m : ToastMessage)
  | navigateHome
deriving DecidableEq, Repr

/-- The outcome of running a handler: the effects it performed, in order, and
whether an exception escaped the handler (a rejected awaited promise that no
`catch` absorbed). Toasts and navigation are modelled as non-throwing. -/
structure HandlerRun where
  effects : List Effect
  escaped : Bool
deriving DecidableEq, Repr

/-- `handleRemoveUser` (lines 69-91): awaits
`userMemberships.delete({documentId, userId: item.id})` inside `try`; on
success navigates home when the removed user is the acting user and toasts
success otherwise; the `catch` toasts a generic error. `deleteSucceeds`
models whether the awaited store call resolves or rejects. -/
def handleRemoveUser (documentId currentUserId : Nat) (item : User)
    (deleteSucceeds : Bool) : HandlerRun :=
  if deleteSucceeds then
    { effects := Effect.deleteUserMembership documentId item.id ::
        (if item.id = currentUserId then [Effect.navigateHome]
         else [Effect.toastSuccess (ToastMessage.removedFromDocument item.name)]),
      escaped := false }
  else
    { effects := [Effect.deleteUserMembership documentId item.id,
        Effect.toastError ToastMessage.couldNotRemoveUser],
      escaped := false }

/-- `handleUpdateUser` (lines 93-111): awaits
`userMemberships.create({documentId, userId, permission})` inside `try`,
toasts success on resolution; the `catch` toasts a generic error. -/
def handleUpdateUser (documentId : Nat) (u : User) (permission : DocumentPermission)
    (createSucceeds : Bool) : HandlerRun :=
  if createSucceeds then
    { effects := [Effect.createUserMembership documentId u.id permission,
        Effect.toastSuccess (ToastMessage.permissionsUpdated u.name)],
      escaped := false }
  else
    { effects := [Effect.createUserMembership documentId u.id permission,
        Effect.toastError ToastMessage.couldNotUpdateUser],
      escaped := false }

/-- The group permission select's `onChange` handler (lines 182-197): when
the selected value is the `EmptySelectValue` sentinel it awaits
`groupMemberships.delete`, otherwise it awaits `groupMemberships.create`
with the selected permission. There is NO try/catch in this handler: a
rejected store call escapes, and no toast is shown on either path. -/
def handleGroupPermissionChange (documentId groupId : Nat) (selected : SelectValue)
    (storeSucceeds : Bool) : HandlerRun :=
  match selected with
  | SelectValue.empty =>
    { effects := [Effect.deleteGroupMembership documentId groupId],
      escaped := !storeSucceeds }
  | SelectValue.perm p =>
    { effects := [Effect.createGroupMembership documentId groupId p],
      escaped := !storeSucceeds }

/-- Whether an effect is an error toast. -/
def isErrorToast : Effect → Bool
  | Effect.toastError _ => true
  | _ => false

/-- C3 as stated: every one of the three mutation handlers, when its store
call fails, absorbs the failure and shows a generic error toast. -/
def allMutationFailuresCaught : Prop :=
  (∀ d c i, (handleRemoveUser d c i false).escaped = false ∧
    (handleRemoveUser d c i false).effects.contains
      (Effect.toastError ToastMessage.couldNotRemoveUser) = true) ∧
  (∀ d u p, (handleUpdateUser d u p false).escaped = false ∧
    (handleUpdateUser d u p false).effects.contains
      (Effect.toastError ToastMessage.couldNotUpdateUser) = true) ∧
  (∀ d g sv, (handleGroupPermissionChange d g sv false).escaped = false ∧
    (handleGroupPermissionChange d g sv false).effects.any isErrorToast = true)

/-- C3 (counterexample): the group permission handler has no try/catch: with
a failing store call it lets the rejection escape (and shows no toast), so
the claim that no handler lets a failure escape is false. -/
theorem handlers_catch_counterexample : ¬ allMutationFailuresCaught := by
  intro h
  have := (h.2.2 1 2 SelectValue.empty).1
  simp [handleGroupPermissionChange] at this

/-- C3 (amended): the remove-user and update-user handlers catch store
failures and show a generic error toast, letting nothing escape; the group
permission handler catches nothing: a store failure escapes it, and it
never shows any toast. -/
theorem handlers_catch_amended (d c g : Nat) (i u : User) (p : DocumentPermission)
    (sv : SelectValue) (ok : Bool) :
    (handleRemoveUser d c i ok).escaped = false ∧
    (handleRemoveUser d c i false).effects.contains
      (Effect.toastError ToastMessage.couldNotRemoveUser) = true ∧
    (handleUpdateUser d u p ok).escaped = false ∧
    (handleUpdateUser d u p false).effects.contains
      (Effect.toastError ToastMessage.couldNotUpdateUser) = true ∧
    (handleGroupPermissionChange d g sv ok).escaped = !ok ∧
    (handleGroupPermissionChange d g sv ok).effects.any isErrorToast = false := by
  refine ⟨?_, by simp [handleRemoveUser], ?_, by simp [handleUpdateUser], ?_, ?_⟩
  · cases ok <;> simp [handleRemoveUser]
  · cases ok <;> simp [handleUpdateUser]
  · cases sv <;> simp [handleGroupPermissionChange]
  · cases sv <;> simp [handleGroupPermissionChange, isErrorToast]

/-- C4: the remove-user handler always attempts the membership delete for
`(document.id, item.id)`; it navigates home exactly when the delete
succeeded and the removed user is the acting user; it toasts success
exactly when the delete succeeded for another user; it toasts the generic
error exactly when the delete failed; and the failure never escapes. -/
theorem remove_user_behavior (d c : Nat) (i : User) (ok : Bool) :
    Effect.deleteUserMembership d i.id ∈ (handleRemoveUser d c i ok).effects ∧
    (Effect.navigateHome ∈ (handleRemoveUser d c i ok).effects ↔ ok = true ∧ i.id = c) ∧
    (Effect.toastSuccess (ToastMessage.removedFromDocument i.name) ∈
        (handleRemoveUser d c i ok).effects ↔ ok = true ∧ i.id ≠ c) ∧
    (Effect.toastError ToastMessage.couldNotRemoveUser ∈
        (handleRemoveUser d c i ok).effects ↔ ok = false) ∧
    (handleRemoveUser d c i ok).escaped = false := by
  cases ok <;> by_cases h : i.id = c <;> simp [handleRemoveUser, h]

/-- C5: for every selected value, the group permission handler dispatches
exactly one store call: the membership delete for `(document.id, groupId)`
when the sentinel is selected, and the membership create with the selected
permission otherwise. -/
theorem group_permission_dispatch (d g : Nat) (p : DocumentPermission) (ok : Bool) :
    (handleGroupPermissionChange d g SelectValue.empty ok).effects =
      [Effect.deleteGroupMembership d g] ∧
    (handleGroupPermissionChange d g (SelectValue.perm p) ok).effects =
      [Effect.createGroupMembership d g p] :=
  ⟨rfl, rfl⟩

/-- C6: the update-user handler always calls the membership create with
`(document.id, user.id, permission)`; it toasts success exactly when the
create succeeded, and the generic error exactly when it failed. -/
theorem update_user_behavior (d : Nat) (u : User) (p : DocumentPermission) (ok : Bool) :
    Effect.createUserMembership d u.id p ∈ (handleUpdateUser d u p ok).effects ∧
    (Effect.toastSuccess (ToastMessage.permissionsUpdated u.name) ∈
        (handleUpdateUser d u p ok).effects ↔ ok = true) ∧
    (Effect.toastError ToastMessage.couldNotUpdateUser ∈
        (handleUpdateUser d u p ok).effects ↔ ok = false) := by
  cases ok <;> simp [handleUpdateUser]

/-- One entry of the permission select: its translated label, its value, and
whether a divider precedes it. -/
structure PermissionOption where
  label : String
  value : SelectValue
  divider : Bool
deriving DecidableEq, Repr

/-- The `permissions` memo (lines 127-149), in source order. -/
def permissions : List PermissionOption :=
  [⟨"View only", SelectValue.perm DocumentPermission.read, false⟩,
   ⟨"Can edit", SelectValue.perm DocumentPermission.readWrite, false⟩,
   ⟨"Manage", SelectValue.perm DocumentPermission.admin, false⟩,
   ⟨"Remove", SelectValue.empty, true⟩]

/-- C8: the permission options offered are exactly, and in this order: Read
("View only"), ReadWrite ("Can edit"), Admin ("Manage") and the
`EmptySelectValue` sentinel ("Remove"); no other value occurs. -/
theorem permission_options_exact :
    permissions.map PermissionOption.value =
      [SelectValue.perm DocumentPermission.read,
       SelectValue.perm DocumentPermission.readWrite,
       SelectValue.perm DocumentPermission.admin,
       SelectValue.empty] ∧
    permissions.map PermissionOption.label =
      ["View only", "Can edit", "Manage", "Remove"] :=
  ⟨rfl, rfl⟩

/-- The document as consumed by the component: id and member users. -/
structure Document where
  id : Nat
  members : List User
deriving DecidableEq, Repr

/-- The fields of `usePolicy(document)` this component reads. -/
structure Policy where
  manageUsers : Bool
  update : Bool
deriving DecidableEq, Repr

/-- The rendered permission select control of a group row. -/
structure SelectControl where
  options : List PermissionOption
  disabled : Bool
  value : SelectValue
deriving DecidableEq, Repr

/-- A rendered group `ListItem`: the select is present iff it was rendered
in `actions`. -/
structure GroupRow where
  membershipId : Nat
  title : Str
  memberCount : Nat
  permissionSelect : Option SelectControl
deriving DecidableEq, Repr

/-- A rendered `MemberListItem`: which optional handlers were passed.
`onRemove` is always passed, so it is not recorded. -/
structure MemberRow where
  userId : Nat
  hasUpdateHandler : Bool
  hasLeaveHandler : Bool
deriving DecidableEq, Repr

/-- What the component returns: the loading indicator, or the two lists. -/
inductive RenderOutput
  | loadingIndicator
  | lists (groupRows : List GroupRow) (memberRows : List MemberRow)
deriving DecidableEq, Repr

/-- The component body after the memos (lines 151-224): the loading guard,
then the group rows over `displayedGroups` and the member rows over
`displayedMembers`. The group permission select is rendered only under
`can.manageUsers`; `onUpdate` is passed to a member row only under
`can.manageUsers`; `onLeave` only for the acting user's own row. -/
def render (doc : Document) (inv : List Nat) (currentUserId : Nat) (can : Policy)
    (groupMembershipsInDoc : List GroupMembership)
    (loadingUserMemberships loadingGroupMemberships : Bool) : RenderOutput :=
  if loadingUserMemberships || loadingGroupMemberships then
    RenderOutput.loadingIndicator
  else
    RenderOutput.lists
      ((displayedGroups groupMembershipsInDoc inv).map fun m =>
        { membershipId := m.id
          title := m.group.name
          memberCount := m.group.memberCount
          permissionSelect :=
            if can.manageUsers then
              some { options := permissions, disabled := !can.update, value := m.permission }
            else none })
      ((displayedMembers doc.members inv).map fun i =>
        { userId := i.id
          hasUpdateHandler := can.manageUsers
          hasLeaveHandler := i.id == currentUserId })

/-- Modelled from the spec: the `useRequest` hook is not under `src/`; per the
spec "the view blocks (shows a loading indicator) until both resolve", its
`loading` flag is true exactly while the fetch has not yet resolved. -/
def fetchUnresolved (resolved : Bool) : Bool := !resolved

/-- Whether the output is the loading indicator (no lists rendered). -/
def showsLoadingIndicator : RenderOutput → Bool
  | RenderOutput.loadingIndicator => true
  | RenderOutput.lists _ _ => false

/-- C7: the component renders the bare loading indicator exactly while at
least one of the two fetches is unresolved; the membership lists are
rendered exactly when both have resolved. -/
theorem loading_gate (doc : Document) (inv : List Nat) (c : Nat) (can : Policy)
    (gs : List GroupMembership) (resolvedUsers resolvedGroups : Bool) :
    showsLoadingIndicator
      (render doc inv c can gs (fetchUnresolved resolvedUsers)
        (fetchUnresolved resolvedGroups)) =
      !(resolvedUsers && resolvedGroups) := by
  cases resolvedUsers <;> cases resolvedGroups <;>
    simp [render, fetchUnresolved, showsLoadingIndicator]

/-- Every rendered permission-update control is present exactly when
`manage` holds: each group row's select and each member row's `onUpdate`. -/
def updateControlsMatchPolicy (out : RenderOutput) (manage : Bool) : Bool :=
  match out with
  | RenderOutput.loadingIndicator => true
  | RenderOutput.lists groupRows memberRows =>
    groupRows.all (fun r => r.permissionSelect.isSome == manage) &&
    memberRows.all (fun r => r.hasUpdateHandler == manage)

/-- C9: in every render, a group row carries the permission select iff the
policy grants `manageUsers`, and a member row carries an update handler iff
the policy grants `manageUsers`; so without `manageUsers` no
update-permission operation is reachable from the rendered output. -/
theorem manage_users_gating (doc : Document) (inv : List Nat) (c : Nat) (can : Policy)
    (gs : List GroupMembership) (lu lg : Bool) :
    updateControlsMatchPolicy (render doc inv c can gs lu lg) can.manageUsers = true := by
  cases lu <;> cases lg <;>
    cases hm : can.manageUsers <;>
      simp [render, updateControlsMatchPolicy, hm, List.all_eq_true]

/-- A user membership record as returned by the membership fetch. -/
structure UserMembership where
  userId : Nat
  permission : DocumentPermission
deriving DecidableEq, Repr

/-- Modelled from the spec: `Pagination.defaultLimit` lives in
`@shared/constants`, outside `src/`; the upstream project uses 25. The
theorems depend only on it being a fixed constant. -/
def Pagination.defaultLimit : Nat := 25

/-- A fetch request the component can issue on mount. -/
inductive FetchRequest
  | documentMemberships (id : Nat) (limit : Nat)
  | allGroupMemberships (documentId : Nat)
deriving DecidableEq, Repr

/-- The mount `useEffect` (lines 64-67) with the two request callbacks
(lines 44-62): the user-membership fetch passes
`limit: Pagination.defaultLimit`; the group-membership fetch is `fetchAll`
with only the document id. Nothing else is fetched on mount. -/
def mountFetches (documentId : Nat) : List FetchRequest :=
  [FetchRequest.documentMemberships documentId Pagination.defaultLimit,
   FetchRequest.allGroupMemberships documentId]

/-- Modelled from the spec: a paginated membership fetch returns at most
`limit` records (its first page). -/
def fetchPage (allRecords : List UserMembership) (limit : Nat) : List UserMembership :=
  allRecords.take limit

/-- The user memberships loaded by the single mount fetch. -/
def userMembershipsLoadedOnMount (allRecords : List UserMembership) : List UserMembership :=
  fetchPage allRecords Pagination.defaultLimit

/-- C10: mounting issues exactly one user-membership fetch, bounded by
`Pagination.defaultLimit`, and one unbounded group-membership `fetchAll`;
consequently at most `defaultLimit` user memberships are loaded on mount
however many exist. -/
theorem mount_fetch_pagination (d : Nat) (allRecords : List UserMembership) :
    mountFetches d =
      [FetchRequest.documentMemberships d Pagination.defaultLimit,
       FetchRequest.allGroupMemberships d] ∧
    (mountFetches d).countP (fun r =>
      match r with
      | FetchRequest.documentMemberships _ _ => true
      | _ => false) = 1 ∧
    (userMembershipsLoadedOnMount allRecords).length ≤ Pagination.defaultLimit := by
  exact ⟨rfl, rfl, List.length_take_le Pagination.defaultLimit allRecords⟩

end Outline
